import Mathlib

/-!
Verification of the `ada-pr-checker` CLI core (src/index.js).

The JavaScript source is shallowly embedded: pure helpers become Lean
functions, the asynchronous fetches of `_checkPRsForRepo` are abstracted as
`Except`-valued inputs, the `p-limit` concurrency limiter (a dependency whose
code is not in this repository) is modelled from the spec as a small-step
transition system, and the settle-time behaviour of the ECMAScript
`Promise.all` combinator used by the `check` handler is modelled explicitly.
-/

namespace AdaPrChecker

/-- Embeds `_arrayIsWildcard` (src/index.js:45):
`x => x.length === 1 && x[0] === '@'`. -/
def arrayIsWildcard (x : List String) : Bool :=
  x.length == 1 && x.headD "" == "@"

/-- Embeds `_negateDate` (src/index.js:47-59). `chrono-node`'s `parseDate`
result is abstracted as an `Option Int` (a millisecond timestamp, or `none`
when the string is unparseable, i.e. JS `null`); `now` is `moment()` as a
millisecond timestamp. On success the code computes
`duration = parsed - now` and returns `now - duration`; otherwise it throws
`Invalid maxCacheAge.`. -/
def negateDate (parsedAge : Option Int) (now : Int) : Except String Int :=
  match parsedAge with
  | some parsed => Except.ok (now - (parsed - now))
  | none => Except.error "Invalid maxCacheAge."

/-- Embeds the `maxCacheAge` pipeline of the `check` command
(src/index.js:190-210): yargs runs the option's `coerce` (which calls
`_negateDate` and may throw) before the command handler, so an unparseable
duration aborts the invocation before any repository task is created; on
success the handler passes the single coerced value to every repository
task. The result records, per repository, the staleness boundary that
repository's `_checkPRsForRepo` call receives. -/
def runCheckAges (parsedAge : Option Int) (now : Int) (repos : List String) :
    Except String (List (String × Int)) :=
  match negateDate parsedAge now with
  | Except.error e => Except.error e
  | Except.ok m => Except.ok (repos.map (fun r => (r, m)))

/-- Embeds the wildcard-repo resolution of the `check` handler
(src/index.js:198-201): `if (_arrayIsWildcard(repos)) repos = config.get('allGithubRepos') || []`. -/
def resolveRepos (allGithubRepos : Option (List String)) (repos : List String) :
    List String :=
  if arrayIsWildcard repos then (allGithubRepos.getD []) else repos

/-- Embeds `String.prototype.startsWith` as used at src/index.js:180. -/
def strStartsWith (s p : String) : Bool :=
  p.data.isPrefixOf s.data

/-- Embeds the auto-computed org name (src/index.js:174-177):
`cohort = Math.floor(moment().diff(moment('2013-06-01'), 'months') / 6)`,
`autoOrgName = Ada-C + cohort`. `monthsElapsed` abstracts the whole-month
difference between now and 2013-06-01 (non-negative for any present-day
invocation). -/
def autoOrgName (monthsElapsed : Nat) : String :=
  "Ada-C" ++ toString (monthsElapsed / 6)

/-- Embeds the `org` option default (src/index.js:173-188). `cfgOrg` is
`config.get('githubOrg')` (`none` when the key is absent). Returns the
resolved org together with whether the outdated-org warning is printed.
JS truthiness of a string is `s !== ''`. -/
def orgDefaultRun (cfgOrg : Option String) (monthsElapsed : Nat) :
    String × Bool :=
  let auto := autoOrgName monthsElapsed
  match cfgOrg with
  | none => (auto, false)
  | some s =>
      if s ≠ "" then
        (s, strStartsWith s "Ada-C" && decide (s ≠ auto))
      else
        (auto, false)

/-- The record shape of a GitHub pull request as consumed at
src/index.js:77-82: `pr.number` and `pr.user.login`. -/
structure PRData where
  number : Nat
  login : String
deriving DecidableEq, Repr

/-- The mapped pull item built at src/index.js:77-82:
`{id: pr.number, user: pr.user.login}`. -/
structure PullItem where
  id : Nat
  user : String
deriving DecidableEq, Repr

/-- A review record as consumed at src/index.js:125-127: only `state` is
read. -/
structure Review where
  state : String
deriving DecidableEq, Repr

/-- One line emitted through `sortedLog` by `_checkPRsForRepo`, abstracted to
its structured content: the `no pulls found` line (src/index.js:95), the
`needs review!` line (src/index.js:118-122), and the `reviewed` line
(src/index.js:126-128). -/
inductive RepoResult where
  | missing (user repo : String)
  | needsReview (user repo : String) (id : Nat)
  | reviewed (user repo : String) (id : Nat) (state : String)
deriving DecidableEq, Repr

/-- Worker for `arrDedupe`, carrying the set of already-seen elements. -/
def dedupeAux : List String → List String → List String
  | [], _ => []
  | x :: xs, seen =>
      if x ∈ seen then dedupeAux xs seen else x :: dedupeAux xs (x :: seen)

/-- Embeds the `array-uniq` dependency used at src/index.js:89: deduplicate
keeping the first occurrence of each element, in order. -/
def arrDedupe (l : List String) : List String := dedupeAux l []

/-- The pull list after the author branch of `_checkPRsForRepo`
(src/index.js:84-90): for an explicit author list the pulls are filtered to
those authors; for the wildcard the pulls are kept unchanged. -/
def effectivePulls (pullData : List PRData) (users : List String) :
    List PullItem :=
  let pulls := pullData.map (fun pr => PullItem.mk pr.number pr.login)
  if !(arrayIsWildcard users) then
    pulls.filter (fun pr => users.contains pr.user)
  else
    pulls

/-- The author list after the author branch of `_checkPRsForRepo`
(src/index.js:84-90): an explicit list is kept as-is; the wildcard is
replaced by the deduplicated authors of the fetched pulls. -/
def effectiveUsers (pullData : List PRData) (users : List String) :
    List String :=
  if !(arrayIsWildcard users) then
    users
  else
    arrDedupe ((pullData.map (fun pr => PullItem.mk pr.number pr.login)).map
      (fun pr => pr.user))

/-- The `no pulls found` loop of `_checkPRsForRepo` (src/index.js:93-97):
one `missing` line per effective user with no pull in the (filtered) pull
list. -/
def missingResults (repo : String) (usersEff : List String)
    (pulls : List PullItem) : List RepoResult :=
  (usersEff.filter (fun u => !(pulls.any (fun pr => pr.user == u)))).map
    (fun u => RepoResult.missing u repo)

/-- The join of the fan-out review fetches (`Promise.all`,
src/index.js:100-104): succeeds with all payloads in order, or fails with
the first failure, yielding no payloads at all. -/
def allPromises {α : Type} : List (Except String α) → Except String (List α)
  | [] => Except.ok []
  | x :: xs =>
      match x with
      | Except.error e => Except.error e
      | Except.ok v =>
          match allPromises xs with
          | Except.error e => Except.error e
          | Except.ok vs => Except.ok (v :: vs)

/-- The classification of one pull request from its review sequence
(src/index.js:112-129): empty sequence means `needs review!`; otherwise the
first element alone determines the `reviewed` line's state. -/
def classifyPR (repo : String) (pr : PullItem) (reviews : List Review) :
    RepoResult :=
  match reviews with
  | [] => RepoResult.needsReview pr.user repo pr.id
  | r :: _ => RepoResult.reviewed pr.user repo pr.id r.state

/-- Embeds `_checkPRsForRepo` (src/index.js:74-131). The two asynchronous
fetches are abstracted: `getRepo` is the settled outcome of
`github.getRepo(org, repo, maxCacheAge)` and `getReviews i` the settled
outcome of `github.getReviews(org, repo, i, maxCacheAge)`. The result is
the list of lines handed to `sortedLog`, in emission order, paired with the
error the task rejects with (if any). A pull-list failure emits nothing; a
review-fetch failure rejects after the `no pulls found` loop has already
run, so the missing lines have been emitted but no classification line
is. -/
def checkPRsForRepo (getRepo : Except String (List PRData))
    (users : List String) (getReviews : Nat → Except String (List Review))
    (repo : String) : List RepoResult × Option String :=
  match getRepo with
  | Except.error e => ([], some e)
  | Except.ok pullData =>
      let pulls := effectivePulls pullData users
      let usersEff := effectiveUsers pullData users
      let missing := missingResults repo usersEff pulls
      match allPromises (pulls.map (fun pr => getReviews pr.id)) with
      | Except.error e => (missing, some e)
      | Except.ok revs =>
          (missing ++ (pulls.zip revs).map (fun pq => classifyPR repo pq.1 pq.2),
            none)

/-- The fetch behaviour of the external GitHub layer during one `check`
invocation, per repository. -/
structure FetchEnv where
  getRepo : String → Except String (List PRData)
  getReviews : String → Nat → Except String (List Review)

/-- The batch of repository tasks created by the `check` handler
(src/index.js:203-210): one `_checkPRsForRepo` outcome per requested
repository, each depending only on that repository's own fetches. -/
def checkBatch (env : FetchEnv) (users : List String) (repos : List String) :
    List (List RepoResult × Option String) :=
  repos.map (fun r => checkPRsForRepo (env.getRepo r) users (env.getReviews r) r)

/-- Embeds `MAX_CONCURRENT_REPO_CHECKS` (src/index.js:43). -/
def MAX_CONCURRENT_REPO_CHECKS : Nat := 5

/-- A settled promise, abstracted to its outcome (`ok = true` for fulfilled,
`false` for rejected) and settle time. -/
structure TaskSettle where
  ok : Bool
  time : Nat
deriving DecidableEq, Repr

/-- Settle-time semantics of the ECMAScript `Promise.all` combinator used by
the `check` handler (src/index.js:210): if every input fulfills, the
aggregate fulfills once the last input has settled; if any input rejects,
the aggregate rejects as soon as the first rejection settles. -/
def promiseAllSettle (l : List TaskSettle) : Bool × Nat :=
  match l.filter (fun t => !t.ok) with
  | [] => (true, (l.map (fun t => t.time)).foldr max 0)
  | r :: rs => (false, (rs.map (fun t => t.time)).foldr min r.time)

/-- Modelled from the spec: state of the Concurrency Limiter (§4.3) — the
`p-limit` dependency applied at src/index.js:203-208 is not part of this
repository's sources. Tasks are numbered; `queue` holds tasks not yet
admitted in FIFO order, `active` the tasks whose bodies are currently
executing, and `done` the settled tasks with their outcome (`true` for
success, `false` for failure). -/
structure LimState where
  queue : List Nat
  active : List Nat
  done : List (Nat × Bool)
deriving DecidableEq, Repr

/-- Modelled from the spec: the initial limiter state for a batch of `N`
repository tasks submitted by the `check` handler — all queued, none
running, none settled. -/
def limInit (N : Nat) : LimState :=
  LimState.mk (List.range N) [] []

/-- Modelled from the spec: one scheduling step of the Concurrency Limiter
with cap `K` (§4.3). `enter` admits the head of the FIFO queue into the
running set, only when fewer than `K` bodies are executing; `finish` settles
a running task with either outcome. Admission never inspects recorded
outcomes, so a failed task neither cancels siblings nor blocks the
queue. -/
inductive LimStep (K : Nat) : LimState → LimState → Prop where
  | enter {t : Nat} {ts a : List Nat} {d : List (Nat × Bool)}
      (h : a.length < K) :
      LimStep K (LimState.mk (t :: ts) a d) (LimState.mk ts (a ++ [t]) d)
  | finish {q a1 a2 : List Nat} {t : Nat} {d : List (Nat × Bool)} {ok : Bool} :
      LimStep K (LimState.mk q (a1 ++ t :: a2) d)
        (LimState.mk q (a1 ++ a2) ((t, ok) :: d))

/-- Reachability of a limiter state from the initial batch of `N` tasks. -/
def LimReach (K N : Nat) (s : LimState) : Prop :=
  Relation.ReflTransGen (LimStep K) (limInit N) s

/-- Progress measure of a limiter state: every scheduling step strictly
decreases it, so every run of the limiter terminates. -/
def limMeasure (s : LimState) : Nat :=
  2 * s.queue.length + s.active.length

/-- A limiter state from which no scheduling step is possible. -/
def LimStuck (K : Nat) (s : LimState) : Prop :=
  ∀ s2, ¬ LimStep K s s2

theorem limReach_active_le {K N : Nat} {s : LimState} (h : LimReach K N s) :
    s.active.length ≤ K := by
  induction h with
  | refl => simp [limInit]
  | tail hab hbc ih =>
      cases hbc with
      | enter hlt =>
          simp only [List.length_append, List.length_cons, List.length_nil]
          omega
      | finish =>
          simp only [List.length_append, List.length_cons] at ih ⊢
          omega

theorem limReach_count {K N : Nat} {s : LimState} (h : LimReach K N s) :
    s.queue.length + s.active.length + s.done.length = N := by
  induction h with
  | refl => simp [limInit]
  | tail hab hbc ih =>
      cases hbc with
      | enter hlt =>
          simp only [List.length_append, List.length_cons, List.length_nil]
            at ih ⊢
          omega
      | finish =>
          simp only [List.length_append, List.length_cons] at ih ⊢
          omega

theorem limStep_measure {K : Nat} {s s2 : LimState} (h : LimStep K s s2) :
    limMeasure s2 < limMeasure s := by
  cases h with
  | enter hlt =>
      simp only [limMeasure, List.length_append, List.length_cons,
        List.length_nil]
      omega
  | finish =>
      simp only [limMeasure, List.length_append, List.length_cons]
      omega

theorem limStuck_settled {K N : Nat} (hK : 0 < K) {s : LimState}
    (h : LimReach K N s) (hs : LimStuck K s) :
    s.queue = [] ∧ s.active = [] ∧ s.done.length = N := by
  obtain ⟨q, a, d⟩ := s
  cases a with
  | cons t rest => exact absurd (@LimStep.finish K q [] rest t d true) (hs _)
  | nil =>
      cases q with
      | cons t ts =>
          exact absurd (@LimStep.enter K t ts [] d (by simpa using hK)) (hs _)
      | nil =>
          refine ⟨rfl, rfl, ?_⟩
          simpa using limReach_count h

theorem le_foldr_max (l : List Nat) (a : Nat) (h : a ∈ l) :
    a ≤ l.foldr max 0 := by
  induction l with
  | nil => cases h
  | cons b bs ih =>
      rcases List.mem_cons.mp h with hb | hb
      · subst hb
        exact le_max_left _ _
      · exact le_trans (ih hb) (le_max_right _ _)

theorem checkBatch_getElem (env : FetchEnv) (users repos : List String)
    (i : Nat) :
    (checkBatch env users repos)[i]? =
      (repos[i]?).map
        (fun r => checkPRsForRepo (env.getRepo r) users (env.getReviews r) r) := by
  simp [checkBatch]

/-- C1: for every batch of `N` repository check tasks submitted via the
`check` command with `N` above the cap `MAX_CONCURRENT_REPO_CHECKS = 5`, in
every reachable limiter state at most 5 task bodies are executing; every
scheduling step strictly decreases the progress measure (so every run of
the limiter terminates); and any reachable state admitting no further step
has settled all `N` tasks. -/
theorem limiter_concurrency_bound (N : Nat)
    (hN : MAX_CONCURRENT_REPO_CHECKS < N) (s : LimState)
    (hs : LimReach MAX_CONCURRENT_REPO_CHECKS N s) :
    s.active.length ≤ MAX_CONCURRENT_REPO_CHECKS ∧
    (∀ s2, LimStep MAX_CONCURRENT_REPO_CHECKS s s2 →
      limMeasure s2 < limMeasure s) ∧
    (LimStuck MAX_CONCURRENT_REPO_CHECKS s → s.done.length = N) :=
  ⟨limReach_active_le hs, fun _ h2 => limStep_measure h2,
    fun hstuck => (limStuck_settled (by decide) hs hstuck).2.2⟩

/-- C1 witness: the batch of 7 tasks at the initial limiter state. -/
theorem limiter_concurrency_bound_witness :
    (limInit 7).active.length ≤ MAX_CONCURRENT_REPO_CHECKS ∧
    (∀ s2, LimStep MAX_CONCURRENT_REPO_CHECKS (limInit 7) s2 →
      limMeasure s2 < limMeasure (limInit 7)) ∧
    (LimStuck MAX_CONCURRENT_REPO_CHECKS (limInit 7) →
      (limInit 7).done.length = 7) :=
  limiter_concurrency_bound 7 (by decide) (limInit 7)
    Relation.ReflTransGen.refl

/-- C2 (amended): a task's failure cancels no sibling and never blocks
admission of queued tasks (admission ignores recorded outcomes), every
reachable stuck state has all `N` tasks settled whatever mix of failures
occurred, each repository's batch entry is a function of that repository's
own fetches alone (so one repository's failure never prevents the others
from completing and reporting), and when every task fulfils the aggregate
`Promise.all` fulfils no earlier than the last task's settle time. However
— this is the amendment — when a task rejects, `Promise.all` reports the
batch as soon as the first rejection settles, not only after every
submitted task has settled. -/
theorem limiter_failure_isolation (N : Nat) (s : LimState)
    (hs : LimReach MAX_CONCURRENT_REPO_CHECKS N s) :
    (LimStuck MAX_CONCURRENT_REPO_CHECKS s → s.done.length = N) ∧
    (∀ (t : Nat) (ts a : List Nat) (d : List (Nat × Bool)),
      a.length < MAX_CONCURRENT_REPO_CHECKS →
      LimStep MAX_CONCURRENT_REPO_CHECKS (LimState.mk (t :: ts) a d)
        (LimState.mk ts (a ++ [t]) d)) ∧
    (∀ (env : FetchEnv) (users repos : List String) (i : Nat),
      (checkBatch env users repos)[i]? =
        (repos[i]?).map (fun r =>
          checkPRsForRepo (env.getRepo r) users (env.getReviews r) r)) ∧
    (∀ l : List TaskSettle, (∀ x ∈ l, x.ok = true) →
      (promiseAllSettle l).1 = true ∧
      ∀ x ∈ l, x.time ≤ (promiseAllSettle l).2) := by
  refine ⟨fun hstuck => (limStuck_settled (by decide) hs hstuck).2.2,
    fun t ts a d hlt => LimStep.enter hlt,
    fun env users repos i => checkBatch_getElem env users repos i,
    fun l hl => ?_⟩
  have hf : l.filter (fun t => !t.ok) = [] := by
    rw [List.filter_eq_nil_iff]
    intro x hx
    simp [hl x hx]
  have hps : promiseAllSettle l = (true, (l.map (fun t => t.time)).foldr max 0) := by
    simp [promiseAllSettle, hf]
  refine ⟨by rw [hps], ?_⟩
  intro x hx
  rw [hps]
  exact le_foldr_max _ _ (List.mem_map.mpr ⟨x, hx, rfl⟩)

/-- C2 witness: a batch of 3 tasks at the initial limiter state. -/
theorem limiter_failure_isolation_witness :
    (LimStuck MAX_CONCURRENT_REPO_CHECKS (limInit 3) →
      (limInit 3).done.length = 3) ∧
    (∀ (t : Nat) (ts a : List Nat) (d : List (Nat × Bool)),
      a.length < MAX_CONCURRENT_REPO_CHECKS →
      LimStep MAX_CONCURRENT_REPO_CHECKS (LimState.mk (t :: ts) a d)
        (LimState.mk ts (a ++ [t]) d)) ∧
    (∀ (env : FetchEnv) (users repos : List String) (i : Nat),
      (checkBatch env users repos)[i]? =
        (repos[i]?).map (fun r =>
          checkPRsForRepo (env.getRepo r) users (env.getReviews r) r)) ∧
    (∀ l : List TaskSettle, (∀ x ∈ l, x.ok = true) →
      (promiseAllSettle l).1 = true ∧
      ∀ x ∈ l, x.time ≤ (promiseAllSettle l).2) :=
  limiter_failure_isolation 3 (limInit 3) Relation.ReflTransGen.refl

/-- C2 counterexample: with one task rejecting at time 1 and a sibling
fulfilling at time 5, the `Promise.all` aggregate used by the `check`
handler settles (rejects) at time 1, before the sibling has settled —
refuting that the overall completion of the batch is reported only after
every submitted task has settled. -/
theorem promiseAll_rejects_early :
    promiseAllSettle [TaskSettle.mk false 1, TaskSettle.mk true 5] =
      (false, 1) ∧ (1 : Nat) < 5 := by
  decide

theorem allPromises_map_ok {α β : Type} (f : α → β) (l : List α) :
    allPromises (l.map (fun x => Except.ok (f x))) = Except.ok (l.map f) := by
  induction l with
  | nil => rfl
  | cons x xs ih => simp [allPromises, ih]

theorem zip_map_self {α β : Type} (g : α → β) (l : List α) :
    l.zip (l.map g) = l.map (fun x => (x, g x)) := by
  induction l with
  | nil => rfl
  | cons x xs ih => simp [ih]

theorem checkPRs_ok_eq (pullData : List PRData) (users : List String)
    (getReviews : Nat → Except String (List Review)) (repo : String) :
    checkPRsForRepo (Except.ok pullData) users getReviews repo =
      match allPromises ((effectivePulls pullData users).map
          (fun pr => getReviews pr.id)) with
      | Except.error e =>
          (missingResults repo (effectiveUsers pullData users)
            (effectivePulls pullData users), some e)
      | Except.ok revs =>
          (missingResults repo (effectiveUsers pullData users)
              (effectivePulls pullData users) ++
            ((effectivePulls pullData users).zip revs).map
              (fun pq => classifyPR repo pq.1 pq.2), none) := rfl

theorem checkPRs_ok_total (pullData : List PRData) (users : List String)
    (getReviews : Nat → List Review) (repo : String) :
    checkPRsForRepo (Except.ok pullData) users
        (fun i => Except.ok (getReviews i)) repo =
      (missingResults repo (effectiveUsers pullData users)
          (effectivePulls pullData users) ++
        (effectivePulls pullData users).map
          (fun pr => classifyPR repo pr (getReviews pr.id)), none) := by
  rw [checkPRs_ok_eq,
    allPromises_map_ok (fun pr => getReviews pr.id)
      (effectivePulls pullData users)]
  show (missingResults repo (effectiveUsers pullData users)
      (effectivePulls pullData users) ++
    ((effectivePulls pullData users).zip
        ((effectivePulls pullData users).map (fun pr => getReviews pr.id))).map
      (fun pq => classifyPR repo pq.1 pq.2), none) = _
  rw [zip_map_self]
  simp [List.map_map, Function.comp]

/-- C3: for every pull request processed by `_checkPRsForRepo` (on the
success path, where all fetches settle successfully), an empty review
sequence yields a `needs review!` line for that pull request, and a
non-empty sequence yields a `reviewed` line carrying the state of the first
element of the sequence only, whatever the later elements are. -/
theorem review_classification_first_only (pullData : List PRData)
    (users : List String) (repo : String) (getReviews : Nat → List Review)
    (pr : PullItem) (hpr : pr ∈ effectivePulls pullData users) :
    (getReviews pr.id = [] →
      RepoResult.needsReview pr.user repo pr.id ∈
        (checkPRsForRepo (Except.ok pullData) users
          (fun i => Except.ok (getReviews i)) repo).1) ∧
    (∀ (r : Review) (rest : List Review), getReviews pr.id = r :: rest →
      RepoResult.reviewed pr.user repo pr.id r.state ∈
        (checkPRsForRepo (Except.ok pullData) users
          (fun i => Except.ok (getReviews i)) repo).1) := by
  constructor
  · intro hrev
    rw [checkPRs_ok_total]
    refine List.mem_append.mpr (Or.inr (List.mem_map.mpr ⟨pr, hpr, ?_⟩))
    simp [classifyPR, hrev]
  · intro r rest hrev
    rw [checkPRs_ok_total]
    refine List.mem_append.mpr (Or.inr (List.mem_map.mpr ⟨pr, hpr, ?_⟩))
    simp [classifyPR, hrev]

/-- C3 witness: one pull by alice with no reviews is reported as needing
review, and one pull by carol whose first review is APPROVED is reported
as reviewed with that state. -/
theorem review_classification_first_only_witness :
    RepoResult.needsReview "alice" "widgets" 1 ∈
      (checkPRsForRepo (Except.ok [PRData.mk 1 "alice"]) ["alice"]
        (fun _ => Except.ok ([] : List Review)) "widgets").1 ∧
    RepoResult.reviewed "carol" "widgets" 2 "APPROVED" ∈
      (checkPRsForRepo (Except.ok [PRData.mk 2 "carol"]) ["@"]
        (fun _ => Except.ok [Review.mk "APPROVED", Review.mk "CHANGES_REQUESTED"])
        "widgets").1 :=
  ⟨(review_classification_first_only [PRData.mk 1 "alice"] ["alice"]
      "widgets" (fun _ => []) (PullItem.mk 1 "alice") (by decide)).1 rfl,
    (review_classification_first_only [PRData.mk 2 "carol"] ["@"]
      "widgets" (fun _ => [Review.mk "APPROVED", Review.mk "CHANGES_REQUESTED"])
      (PullItem.mk 2 "carol") (by decide)).2
      (Review.mk "APPROVED") [Review.mk "CHANGES_REQUESTED"] rfl⟩

theorem classifyPR_ne_missing (repo u r2 : String) (pr : PullItem)
    (reviews : List Review) :
    classifyPR repo pr reviews ≠ RepoResult.missing u r2 := by
  cases reviews <;> simp [classifyPR]

theorem mem_effectivePulls (pullData : List PRData) (users : List String)
    (pr : PullItem) (h : pr ∈ effectivePulls pullData users) :
    ∃ prd ∈ pullData, pr = PullItem.mk prd.number prd.login := by
  have hsub : pr ∈ pullData.map (fun p => PullItem.mk p.number p.login) := by
    simp only [effectivePulls] at h
    by_cases hw : (!(arrayIsWildcard users)) = true
    · rw [if_pos hw] at h
      exact List.mem_of_mem_filter h
    · rw [if_neg hw] at h
      exact h
  obtain ⟨prd, hprd, heq⟩ := List.mem_map.mp hsub
  exact ⟨prd, hprd, heq.symm⟩

/-- C4: for an explicit (non-wildcard), duplicate-free author list and an
author in it with zero open pull requests among the fetched pulls of the
repository, `_checkPRsForRepo` emits exactly one `no pulls found` line for
that author and no `needs review!` or `reviewed` line for them. -/
theorem explicit_author_missing_unique (pullData : List PRData)
    (users : List String) (repo : String) (getReviews : Nat → List Review)
    (user : String) (hw : arrayIsWildcard users = false)
    (hnd : users.Nodup) (hu : user ∈ users)
    (hnone : ∀ prd ∈ pullData, prd.login ≠ user) :
    ((checkPRsForRepo (Except.ok pullData) users
        (fun i => Except.ok (getReviews i)) repo).1.count
      (RepoResult.missing user repo) = 1) ∧
    (∀ id : Nat, RepoResult.needsReview user repo id ∉
      (checkPRsForRepo (Except.ok pullData) users
        (fun i => Except.ok (getReviews i)) repo).1) ∧
    (∀ (id : Nat) (st : String), RepoResult.reviewed user repo id st ∉
      (checkPRsForRepo (Except.ok pullData) users
        (fun i => Except.ok (getReviews i)) repo).1) := by
  have hpuser : ∀ pr ∈ effectivePulls pullData users, pr.user ≠ user := by
    intro pr hpr
    obtain ⟨prd, hprd, rfl⟩ := mem_effectivePulls pullData users pr hpr
    exact hnone prd hprd
  have hueff : effectiveUsers pullData users = users := by
    simp [effectiveUsers, hw]
  have hanyf :
      (effectivePulls pullData users).any (fun pr => pr.user == user) = false := by
    rw [List.any_eq_false]
    intro pr hpr
    simp [hpuser pr hpr]
  rw [checkPRs_ok_total, hueff]
  refine ⟨?_, ?_, ?_⟩
  · show ((missingResults repo users (effectivePulls pullData users) ++
      (effectivePulls pullData users).map
        (fun pr => classifyPR repo pr (getReviews pr.id))).count
      (RepoResult.missing user repo)) = 1
    rw [List.count_append]
    have hcls : ((effectivePulls pullData users).map
        (fun pr => classifyPR repo pr (getReviews pr.id))).count
        (RepoResult.missing user repo) = 0 := by
      rw [List.count_eq_zero]
      intro hmem
      obtain ⟨pr, hpr, heq⟩ := List.mem_map.mp hmem
      exact classifyPR_ne_missing repo user repo pr (getReviews pr.id) heq
    rw [hcls]
    unfold missingResults
    rw [List.count_map_of_injective _ (fun u => RepoResult.missing u repo)
      (fun a b hab => by simpa using hab) user]
    rw [List.count_filter (by simp [hanyf]), List.count_eq_one_of_mem hnd hu]
  · intro id hmem
    rcases List.mem_append.mp hmem with h | h
    · simp [missingResults] at h
    · obtain ⟨pr, hpr, heq⟩ := List.mem_map.mp h
      have hne := hpuser pr hpr
      cases hg : getReviews pr.id <;> rw [hg] at heq <;>
        simp [classifyPR] at heq
      exact hne heq.1
  · intro id st hmem
    rcases List.mem_append.mp hmem with h | h
    · simp [missingResults] at h
    · obtain ⟨pr, hpr, heq⟩ := List.mem_map.mp h
      have hne := hpuser pr hpr
      cases hg : getReviews pr.id <;> rw [hg] at heq <;>
        simp [classifyPR] at heq
      exact hne heq.1

/-- C4 witness: authors alice and bob, one pull by alice only — bob gets
exactly one `no pulls found` line. -/
theorem explicit_author_missing_unique_witness :
    ((checkPRsForRepo (Except.ok [PRData.mk 1 "alice"]) ["alice", "bob"]
        (fun _ => Except.ok ([] : List Review)) "widgets").1.count
      (RepoResult.missing "bob" "widgets") = 1) :=
  (explicit_author_missing_unique [PRData.mk 1 "alice"] ["alice", "bob"]
    "widgets" (fun _ => []) "bob" (by decide) (by decide) (by decide)
    (by decide)).1

theorem mem_of_mem_dedupeAux :
    ∀ (l seen : List String) (x : String), x ∈ dedupeAux l seen → x ∈ l
  | [], _, _, h => by simp [dedupeAux] at h
  | y :: ys, seen, x, h => by
      by_cases hy : y ∈ seen
      · simp only [dedupeAux, if_pos hy] at h
        exact List.mem_cons_of_mem _ (mem_of_mem_dedupeAux ys seen x h)
      · simp only [dedupeAux, if_neg hy, List.mem_cons] at h
        rcases h with h | h
        · exact h ▸ List.mem_cons_self _ _
        · exact List.mem_cons_of_mem _ (mem_of_mem_dedupeAux ys (y :: seen) x h)

theorem mem_of_mem_arrDedupe (l : List String) (x : String)
    (h : x ∈ arrDedupe l) : x ∈ l :=
  mem_of_mem_dedupeAux l [] x h

/-- C5: under the wildcard author list, `_checkPRsForRepo` resolves the
author set to the deduplicated logins of the fetched pulls, emits no
`no pulls found` line at all, and for a repository with zero fetched pulls
produces no output of any kind. -/
theorem wildcard_author_resolution (pullData : List PRData) (repo : String)
    (getReviews : Nat → List Review) :
    effectiveUsers pullData ["@"] =
      arrDedupe (pullData.map (fun prd => prd.login)) ∧
    (∀ u r2, RepoResult.missing u r2 ∉
      (checkPRsForRepo (Except.ok pullData) ["@"]
        (fun i => Except.ok (getReviews i)) repo).1) ∧
    (pullData = [] →
      checkPRsForRepo (Except.ok pullData) ["@"]
        (fun i => Except.ok (getReviews i)) repo = ([], none)) := by
  have hwc : arrayIsWildcard ["@"] = true := rfl
  have hueff : effectiveUsers pullData ["@"] =
      arrDedupe (pullData.map (fun prd => prd.login)) := by
    simp only [effectiveUsers, hwc, Bool.not_true, Bool.false_eq_true,
      if_false, List.map_map]
    rfl
  have hpulls : effectivePulls pullData ["@"] =
      pullData.map (fun p => PullItem.mk p.number p.login) := by
    simp [effectivePulls, hwc]
  refine ⟨hueff, ?_, ?_⟩
  · intro u r2 hmem
    rw [checkPRs_ok_total] at hmem
    rcases List.mem_append.mp hmem with h | h
    · simp only [missingResults, List.mem_map] at h
      obtain ⟨v, hv, heq⟩ := h
      obtain ⟨hvmem, hvfil⟩ := List.mem_filter.mp hv
      rw [hueff] at hvmem
      have hvin : v ∈ pullData.map (fun prd => prd.login) :=
        mem_of_mem_arrDedupe _ v hvmem
      obtain ⟨prd, hprd, hlogin⟩ := List.mem_map.mp hvin
      have : (effectivePulls pullData ["@"]).any
          (fun pr => pr.user == v) = true := by
        rw [hpulls]
        rw [List.any_eq_true]
        exact ⟨PullItem.mk prd.number prd.login, List.mem_map.mpr ⟨prd, hprd, rfl⟩,
          by simp [hlogin]⟩
      simp [this] at hvfil
    · obtain ⟨pr, hpr, heq⟩ := List.mem_map.mp h
      exact classifyPR_ne_missing repo u r2 pr (getReviews pr.id) heq
  · intro h
    subst h
    rfl

/-- C5 witness: wildcard, one pull by carol whose first review approves —
no missing line for carol, and an empty repository yields no output. -/
theorem wildcard_author_resolution_witness :
    RepoResult.missing "carol" "widgets" ∉
      (checkPRsForRepo (Except.ok [PRData.mk 2 "carol"]) ["@"]
        (fun _ => Except.ok [Review.mk "APPROVED"]) "widgets").1 ∧
    checkPRsForRepo (Except.ok ([] : List PRData)) ["@"]
      (fun _ => Except.ok ([] : List Review)) "widgets" = ([], none) :=
  ⟨(wildcard_author_resolution [PRData.mk 2 "carol"] "widgets"
      (fun _ => [Review.mk "APPROVED"])).2.1 "carol" "widgets",
    (wildcard_author_resolution [] "widgets" (fun _ => [])).2.2 rfl⟩

/-- C6: an unparseable maxCacheAge string makes `_negateDate` (run by the
option's coerce, before the handler) raise `Invalid maxCacheAge.`, aborting
the whole invocation with no repository processed — the failure is never
per-repository. -/
theorem invalid_maxCacheAge_aborts (now : Int) (repos : List String) :
    negateDate none now = Except.error "Invalid maxCacheAge." ∧
    runCheckAges none now repos = Except.error "Invalid maxCacheAge." :=
  ⟨rfl, rfl⟩

/-- C7: the staleness cutoff is `now - (parsed - now)` — computed once by
the coerce and fixed for the invocation — and every repository task of the
run receives exactly that value; when the parsed date lies in the future
(a duration such as `60 minutes`), the cutoff is in the past. -/
theorem staleness_cutoff_uniform (p now : Int) (repos : List String)
    (parsedAge : Option Int) (h : parsedAge = some p) :
    negateDate parsedAge now = Except.ok (now - (p - now)) ∧
    runCheckAges parsedAge now repos =
      Except.ok (repos.map (fun r => (r, now - (p - now)))) ∧
    (∀ pair ∈ repos.map (fun r => (r, now - (p - now))),
      pair.2 = now - (p - now)) ∧
    (now < p → now - (p - now) < now) := by
  subst h
  refine ⟨rfl, rfl, ?_, ?_⟩
  · intro pair hp
    obtain ⟨r, hr, heq⟩ := List.mem_map.mp hp
    rw [← heq]
  · intro hlt
    omega

/-- C7 witness: parsed timestamp 100 at now 40 gives the fixed cutoff -20,
shared by both repository tasks and lying in the past. -/
theorem staleness_cutoff_uniform_witness :
    runCheckAges (some 100) 40 ["a", "b"] =
      Except.ok (["a", "b"].map (fun r => (r, (40 : Int) - (100 - 40)))) ∧
    ((40 : Int) - (100 - 40) < 40) :=
  ⟨(staleness_cutoff_uniform 100 40 ["a", "b"] (some 100) rfl).2.1,
    (staleness_cutoff_uniform 100 40 ["a", "b"] (some 100) rfl).2.2.2
      (by decide)⟩

theorem checkPRs_review_fail (pullData : List PRData) (users : List String)
    (getReviews : Nat → Except String (List Review)) (repo e2 : String)
    (hA : allPromises ((effectivePulls pullData users).map
      (fun pr => getReviews pr.id)) = Except.error e2) :
    checkPRsForRepo (Except.ok pullData) users getReviews repo =
      (missingResults repo (effectiveUsers pullData users)
        (effectivePulls pullData users), some e2) := by
  rw [checkPRs_ok_eq, hA]

theorem checkPRs_review_join_ok (pullData : List PRData)
    (users : List String) (getReviews : Nat → Except String (List Review))
    (repo : String) (revs : List (List Review))
    (hA : allPromises ((effectivePulls pullData users).map
      (fun pr => getReviews pr.id)) = Except.ok revs) :
    checkPRsForRepo (Except.ok pullData) users getReviews repo =
      (missingResults repo (effectiveUsers pullData users)
          (effectivePulls pullData users) ++
        ((effectivePulls pullData users).zip revs).map
          (fun pq => classifyPR repo pq.1 pq.2), none) := by
  rw [checkPRs_ok_eq, hA]

/-- C8 (amended): a repository whose pull-request-list fetch fails produces
no output at all; a repository whose review fetch fails rejects after the
`no pulls found` loop has already run, so its output can contain
`no pulls found` lines but never a `needs review!` or `reviewed` line; and
each repository's batch entry depends only on its own fetches, so
unaffected repositories print normally. -/
theorem failed_repo_output_semantics (users : List String) (repo e : String)
    (pullData : List PRData)
    (getReviews : Nat → Except String (List Review)) :
    checkPRsForRepo (Except.error e) users getReviews repo = ([], some e) ∧
    ((checkPRsForRepo (Except.ok pullData) users getReviews repo).2.isSome →
      ∀ res ∈ (checkPRsForRepo (Except.ok pullData) users getReviews repo).1,
        ∃ u, res = RepoResult.missing u repo) ∧
    (∀ (env : FetchEnv) (users2 repos : List String) (i : Nat),
      (checkBatch env users2 repos)[i]? =
        (repos[i]?).map (fun r =>
          checkPRsForRepo (env.getRepo r) users2 (env.getReviews r) r)) := by
  refine ⟨rfl, ?_,
    fun env users2 repos i => checkBatch_getElem env users2 repos i⟩
  intro hfail res hres
  cases hA : allPromises ((effectivePulls pullData users).map
      (fun pr => getReviews pr.id)) with
  | error e2 =>
      rw [checkPRs_review_fail pullData users getReviews repo e2 hA] at hres
      simp only [missingResults, List.mem_map] at hres
      obtain ⟨u, hu, heq⟩ := hres
      exact ⟨u, heq.symm⟩
  | ok revs =>
      rw [checkPRs_review_join_ok pullData users getReviews repo revs hA]
        at hfail
      simp at hfail

/-- C8 counterexample: with authors alice and bob, one fetched pull by
alice, and every review fetch failing, the repository's task rejects (with
`network`) yet its output is not empty — a `no pulls found` line for bob
was emitted before the join failed, refuting that a failed repository
produces no output at all. -/
theorem failed_repo_output_nonempty :
    (checkPRsForRepo (Except.ok [PRData.mk 1 "alice"]) ["alice", "bob"]
        (fun _ => Except.error "network") "widgets") =
      ([RepoResult.missing "bob" "widgets"], some "network") ∧
    ([RepoResult.missing "bob" "widgets"] : List RepoResult) ≠ [] := by
  constructor
  · rfl
  · simp

/-- C8 witness: the review-failure case of the amended theorem at the same
concrete input — the only line emitted by the failed repository is a
`no pulls found` line. -/
theorem failed_repo_output_semantics_witness :
    checkPRsForRepo (Except.error "boom") ["alice"]
      (fun _ => Except.ok ([] : List Review)) "widgets" =
        ([], some "boom") ∧
    ∀ res ∈ (checkPRsForRepo (Except.ok [PRData.mk 1 "alice"])
        ["alice", "bob"] (fun _ => Except.error "network") "widgets").1,
      ∃ u, res = RepoResult.missing u "widgets" :=
  ⟨(failed_repo_output_semantics ["alice"] "widgets" "boom" []
      (fun _ => Except.ok ([] : List Review))).1,
    (failed_repo_output_semantics ["alice", "bob"] "widgets" "x"
      [PRData.mk 1 "alice"] (fun _ => Except.error "network")).2.1
      (by decide)⟩

/-- C9: the wildcard sentinel is recognised only for the one-element list
containing `@`; a list holding `@` together with any other entry treats `@`
as a literal repository or author name. -/
theorem wildcard_requires_singleton :
    (∀ xs : List String, arrayIsWildcard xs = true ↔ xs = ["@"]) ∧
    arrayIsWildcard ["@", "x"] = false ∧
    arrayIsWildcard ["a", "@"] = false ∧
    resolveRepos (some ["r1", "r2"]) ["@", "x"] = ["@", "x"] ∧
    effectivePulls [PRData.mk 1 "@", PRData.mk 2 "y"] ["@", "x"] =
      [PullItem.mk 1 "@"] ∧
    effectiveUsers [PRData.mk 1 "@", PRData.mk 2 "y"] ["@", "x"] =
      ["@", "x"] := by
  refine ⟨?_, by decide, by decide, by decide, by decide, by decide⟩
  intro xs
  match xs with
  | [] => simp [arrayIsWildcard]
  | [x] => simp [arrayIsWildcard]
  | x :: y :: ys => simp [arrayIsWildcard]

/-- C10: with `githubOrg` absent the org defaults to `Ada-C` followed by
`monthsElapsed / 6` (floor division, months since 2013-06-01) with no
warning; a configured org that is non-empty, starts with `Ada-C` and
differs from the auto-computed name triggers the warning yet is still the
value used. -/
theorem org_default_and_warning (monthsElapsed : Nat) (s : String)
    (h1 : s ≠ "") (h2 : strStartsWith s "Ada-C" = true)
    (h3 : s ≠ autoOrgName monthsElapsed) :
    orgDefaultRun none monthsElapsed =
      ("Ada-C" ++ toString (monthsElapsed / 6), false) ∧
    orgDefaultRun (some s) monthsElapsed = (s, true) := by
  constructor
  · rfl
  · show (if s ≠ "" then
        (s, strStartsWith s "Ada-C" && decide (s ≠ autoOrgName monthsElapsed))
      else (autoOrgName monthsElapsed, false)) = (s, true)
    rw [if_pos h1, h2]
    simp [h3]

/-- C10 witness: 160 elapsed months auto-computes `Ada-C26`; the configured
org `Ada-C1` differs, warns, and is still used. -/
theorem org_default_and_warning_witness :
    orgDefaultRun none 160 = ("Ada-C" ++ toString (160 / 6), false) ∧
    orgDefaultRun (some "Ada-C1") 160 = ("Ada-C1", true) :=
  org_default_and_warning 160 "Ada-C1" (by decide) (by decide) (by decide)

end AdaPrChecker
